import Mathlib

/-!
# Verification of the CSV chunking / vector-retrieval core

Shallow embedding of the chunking engine (`backend/core/chunking.py`,
`backend/utils/base_chunker.py`) and the vector storage/retrieval layer
(`backend/core/storing.py`, `backend/core/retrieval.py`).

Modelling conventions:
* a dataset is a `List` of rows; a concrete row is `List (Option String)`
  (a CSV cell that is `none` models a pandas `NaN`);
* Python floats are modelled as exact rationals `ℚ`; the single use of a
  square root (`np.std`) only feeds the comparison `std > mean * 0.5`,
  which is embedded as the equivalent squared comparison
  `variance > (mean / 2) ^ 2` (both sides are nonnegative);
* fallible code returns `Except String`;
* `while`/`for` loops with `break` become structural recursions on an
  explicit iteration budget that the Python loop bounds cannot exceed.
-/

namespace CsvOpt

/-! ## Quality assessment (`base_chunker.py`, `ChunkingQualityAssessment`) -/

/-- Size statistics of the chunk list, as in the `chunk_size_stats` entry of
the report returned by `comprehensive_assessment`.  `np.std` (a float square
root) is not stored; the variance determines it. -/
structure SizeStats where
  mean : ℚ
  variance : ℚ
  minSize : ℕ
  maxSize : ℕ
deriving Repr, DecidableEq

/-- The dictionary returned by `ChunkingQualityAssessment.comprehensive_assessment`.
Keys that are present only on one branch of the Python function are `Option`s:
the empty-chunk-list branch returns only `overall_quality`, `coverage`,
`total_chunks` and `error`. -/
structure QualityReport where
  overall_quality : String
  quality_score : Option ℚ
  coverage : ℚ
  total_chunks : ℕ
  total_rows_processed : Option ℕ
  original_rows : Option ℕ
  stats : Option SizeStats
  empty_chunks : Option ℕ
  very_small_chunks : Option ℕ
  very_large_chunks : Option ℕ
  error : Option String
deriving Repr, DecidableEq

/-- `chunk_sizes = [len(chunk) for chunk in chunks]`. -/
def chunkSizes (chunks : List (List α)) : List ℕ :=
  chunks.map List.length

/-- `total_rows_chunked = sum(len(chunk) for chunk in chunks)`. -/
def totalRowsChunked (chunks : List (List α)) : ℕ :=
  (chunkSizes chunks).sum

/-- `coverage = total_rows_chunked / original_rows if original_rows > 0 else 0.0`. -/
def chunkCoverage (chunks : List (List α)) (original : List β) : ℚ :=
  if 0 < original.length then
    (totalRowsChunked chunks : ℚ) / (original.length : ℚ)
  else 0

/-- `avg_chunk_size = np.mean(chunk_sizes)` (over the nonempty branch). -/
def sizeMean (chunks : List (List α)) : ℚ :=
  (((chunkSizes chunks).map (fun s => (s : ℚ))).sum) / ((chunkSizes chunks).length : ℚ)

/-- `size_variance = np.var(chunk_sizes)` (population variance). -/
def sizeVariance (chunks : List (List α)) : ℚ :=
  (((chunkSizes chunks).map (fun s => ((s : ℚ) - sizeMean chunks) ^ 2)).sum) /
    ((chunkSizes chunks).length : ℚ)

/-- `empty_chunks = sum(1 for chunk in chunks if chunk.empty)`. -/
def emptyChunkCount (chunks : List (List α)) : ℕ :=
  chunks.countP (·.isEmpty)

/-- `very_small_chunks = sum(1 for size in chunk_sizes if size < 3)`. -/
def verySmallChunkCount (chunks : List (List α)) : ℕ :=
  (chunkSizes chunks).countP (fun s => decide (s < 3))

/-- `very_large_chunks = sum(1 for size in chunk_sizes if size > original_rows * 0.8)`. -/
def veryLargeChunkCount (chunks : List (List α)) (original : List β) : ℕ :=
  (chunkSizes chunks).countP (fun s => decide ((original.length : ℚ) * (8/10) < (s : ℚ)))

/-- The Python comparison `size_std > avg_chunk_size * 0.5`, embedded without a
square root: `std = sqrt variance` and `mean * 0.5` are both nonnegative here,
so the comparison is equivalent to comparing their squares. -/
def highSizeStd (chunks : List (List α)) : Bool :=
  decide ((sizeMean chunks * (1/2)) ^ 2 < sizeVariance chunks)

/-- The sequential quality-score computation of `comprehensive_assessment`:
start at `1.0`, apply the five penalty `if`s, then clamp to `[0, 1]`. -/
def qualityScore (chunks : List (List α)) (original : List β) : ℚ :=
  let coverage := chunkCoverage chunks original
  let q1 : ℚ := 1
  let q2 := if coverage < 95/100 then q1 - (95/100 - coverage) * 2 else q1
  let q3 := if 0 < emptyChunkCount chunks then
      q2 - (emptyChunkCount chunks : ℚ) * (1/10) else q2
  let q4 := if 0 < verySmallChunkCount chunks then
      q3 - (verySmallChunkCount chunks : ℚ) * (5/100) else q3
  let q5 := if 0 < veryLargeChunkCount chunks original then
      q4 - (veryLargeChunkCount chunks original : ℚ) * (2/10) else q4
  let q6 := if highSizeStd chunks then q5 - 1/10 else q5
  max 0 (min 1 q6)

/-- The quality-label ladder at the end of `comprehensive_assessment`. -/
def qualityLabel (score : ℚ) : String :=
  if 8/10 ≤ score then "EXCELLENT"
  else if 6/10 ≤ score then "GOOD"
  else if 4/10 ≤ score then "FAIR"
  else "POOR"

/-- `ChunkingQualityAssessment.comprehensive_assessment(chunks, original_df)`.
Only the row count of each chunk and of the original dataframe matter, so the
row types are abstract. -/
def comprehensiveAssessment (chunks : List (List α)) (original : List β) : QualityReport :=
  if chunks.isEmpty then
    { overall_quality := "POOR"
      quality_score := none
      coverage := 0
      total_chunks := 0
      total_rows_processed := none
      original_rows := none
      stats := none
      empty_chunks := none
      very_small_chunks := none
      very_large_chunks := none
      error := some "No chunks generated" }
  else
    let score := qualityScore chunks original
    { overall_quality := qualityLabel score
      quality_score := some score
      coverage := chunkCoverage chunks original
      total_chunks := chunks.length
      total_rows_processed := some (totalRowsChunked chunks)
      original_rows := some original.length
      stats := some
        { mean := sizeMean chunks
          variance := sizeVariance chunks
          minSize := ((chunkSizes chunks).min?).getD 0
          maxSize := ((chunkSizes chunks).max?).getD 0 }
      empty_chunks := some (emptyChunkCount chunks)
      very_small_chunks := some (verySmallChunkCount chunks)
      very_large_chunks := some (veryLargeChunkCount chunks original)
      error := none }

/-! ## Shared chunker scaffolding (`base_chunker.py`, `BaseChunker`) -/

/-- A concrete dataframe row: one `Option String` cell per column
(`none` models a pandas `NaN`). -/
abbrev Row := List (Option String)

/-- The `ChunkMetadata` dataclass.  The open `additional_metadata` mapping is
modelled only for the document-based chunker (see `DocChunkMeta`), whose
sub-chunk tags a claim depends on. -/
structure ChunkMeta where
  chunk_id : String
  start_idx : ℕ
  end_idx : ℕ
  chunk_size : ℕ
  method : String
deriving Repr, DecidableEq

/-- Zero-padding of the chunk index used by the `"<method>_chunk_{i:04d}"`
chunk-id format. -/
def pad4 (n : ℕ) : String :=
  let s := toString n
  String.mk (List.replicate (4 - s.length) '0') ++ s

/-- The `ChunkingResult` dataclass (chunks, parallel metadata, method name,
total count, quality report). -/
structure ChunkingResult (α : Type) where
  chunks : List (List α)
  metadata : List ChunkMeta
  method : String
  total_chunks : ℕ
  quality_report : QualityReport
deriving Repr, DecidableEq

/-- `BaseChunker.validate_input`: the dataframe must be nonempty.  (The
`isinstance` check and the zero-column check are outside the model: rows are
abstract here, and a pandas frame with rows always has a column.) -/
def validateInput (df : List α) : Except String Unit :=
  if df.isEmpty then .error "DataFrame cannot be empty" else .ok ()

/-! ## Fixed-size chunker (`FixedSizeChunker.chunk`) -/

/-- The `for start_idx in range(0, total_rows, step)` loop of
`FixedSizeChunker.chunk`, returning `(start_idx, chunk)` pairs.  The loop
emits the window at `start_idx`, then breaks once the window's end reaches
the dataframe length.  The explicit budget `fuel` only bounds the iteration
count; `df.length` iterations always suffice because `step ≥ 1`. -/
def fixedSizeLoop (df : List α) (chunkSize step : ℕ) : ℕ → ℕ → List (ℕ × List α)
  | 0, _ => []
  | fuel + 1, start =>
    if start < df.length then
      let c := (df.drop start).take chunkSize
      if df.length ≤ start + chunkSize then [(start, c)]
      else (start, c) :: fixedSizeLoop df chunkSize step fuel (start + step)
    else []

/-- The successful body of `FixedSizeChunker.chunk`: windows, parallel
metadata, and the quality report.  Parameters are naturals, so the Python
guard `overlap < 0` cannot fire and is not modelled; `chunk_size <= 0`
becomes `chunkSize = 0`. -/
def fixedSizeResult (df : List α) (chunkSize overlap : ℕ) : ChunkingResult α :=
  let step := max 1 (chunkSize - overlap)
  let raw := fixedSizeLoop df chunkSize step df.length 0
  let chunks := raw.map Prod.snd
  let metas := raw.enum.map (fun p =>
    { chunk_id := "fixed_size_chunk_" ++ pad4 p.1
      start_idx := p.2.1
      end_idx := min (p.2.1 + chunkSize) df.length - 1
      chunk_size := p.2.2.length
      method := "fixed_size" : ChunkMeta })
  { chunks := chunks
    metadata := metas
    method := "fixed_size"
    total_chunks := chunks.length
    quality_report := comprehensiveAssessment chunks df }

/-- `FixedSizeChunker.chunk(dataframe, chunk_size, overlap)`: the validation
guards, then the successful result above. -/
def fixedSizeChunk (df : List α) (chunkSize overlap : ℕ) :
    Except String (ChunkingResult α) := do
  let _ ← validateInput df
  if chunkSize = 0 then throw "chunk_size must be positive"
  else if chunkSize ≤ overlap then throw "overlap must be less than chunk_size"
  else pure (fixedSizeResult df chunkSize overlap)

/-! ## Semantic chunker, fallback path (`SemanticChunker._chunk_fallback`)

The primary path embeds rows with an external sentence-transformer and
clusters with an external k-means; when those libraries are unavailable (or
raise), `chunk` runs the deterministic in-repository fallback modelled here.
The synthesized per-chunk `text` column does not affect any claim and is not
carried in the chunk rows. -/

/-- The `for i in range(n_clusters)` loop of `_chunk_fallback`: block `i`
covers rows `[i*cs, min((i+1)*cs, len))`; the loop breaks when a block would
start at or beyond the end.  Structural recursion on the remaining iteration
count, which starts at `n_clusters`. -/
def semanticFallbackLoop (df : List α) (cs : ℕ) : ℕ → ℕ → List (List α)
  | 0, _ => []
  | rem + 1, i =>
    if i * cs < df.length then
      ((df.drop (i * cs)).take cs) :: semanticFallbackLoop df cs rem (i + 1)
    else []

/-- The body of `_chunk_fallback(dataframe, n_clusters)`: blocks of
`chunk_size = max(1, len(dataframe) // n_clusters)` rows, parallel metadata,
and the quality report. -/
def semanticFallbackResult (df : List α) (nClusters : ℕ) : ChunkingResult α :=
  let cs := max 1 (df.length / nClusters)
  let chunks := semanticFallbackLoop df cs nClusters 0
  let metas := chunks.enum.map (fun p =>
    { chunk_id := "semantic_chunk_" ++ pad4 p.1
      start_idx := p.1 * cs
      end_idx := min ((p.1 + 1) * cs) df.length - 1
      chunk_size := p.2.length
      method := "semantic" : ChunkMeta })
  { chunks := chunks
    metadata := metas
    method := "semantic"
    total_chunks := chunks.length
    quality_report := comprehensiveAssessment chunks df }

/-- `SemanticChunker.chunk` in the fallback environment: `validate_input`,
then the fallback result above. -/
def semanticFallbackChunk (df : List α) (nClusters : ℕ) :
    Except String (ChunkingResult α) := do
  let _ ← validateInput df
  pure (semanticFallbackResult df nClusters)

/-! ## Recursive chunker, fallback path (`RecursiveChunker._chunk_fallback`)

The primary path delegates the split to the external langchain
`RecursiveCharacterTextSplitter`; without it, `chunk` runs the in-repository
fallback modelled here. -/

/-- One row rendered as `"col: value | col: value"`, omitting `NaN` cells. -/
def rowToPipeText (cols : List String) (r : Row) : String :=
  String.intercalate " | "
    ((cols.zip r).filterMap (fun p => p.2.map (fun v => p.1 ++ ": " ++ v)))

/-- The accumulate-and-flush loop of `RecursiveChunker._chunk_fallback`,
iterating over `(text_row, positional_index)` pairs.  State: the pending
row indices, the pending text, and the pending character count.  When adding
a row would exceed `chunk_size` and the buffer is nonempty, the buffer is
emitted and reseeded with the last `overlap // 100` row indices; after the
loop a nonempty buffer is emitted.  Emits row-index groups. -/
def recFallbackLoop (texts : List String) (chunkSize overlap : ℕ) :
    List (String × ℕ) → List ℕ → String → ℕ → List (List ℕ)
  | [], curRows, _, _ => if curRows.isEmpty then [] else [curRows]
  | (t, idx) :: rest, curRows, curText, curCount =>
    if chunkSize < curCount + t.length ∧ ¬ curRows.isEmpty then
      let ovr := min (overlap / 100) curRows.length
      let newRows := if 0 < ovr then curRows.drop (curRows.length - ovr) else []
      let newText := String.intercalate "\n" (newRows.map (fun r => texts.getD r ""))
      curRows :: recFallbackLoop texts chunkSize overlap rest
        (newRows ++ [idx]) (newText ++ "\n" ++ t) (newText.length + t.length + 1)
    else
      recFallbackLoop texts chunkSize overlap rest
        (curRows ++ [idx]) (curText ++ "\n" ++ t) (curCount + t.length + 1)

/-- `RecursiveChunker.chunk` in the fallback environment: `validate_input`,
then the character-budgeted accumulation over the rendered rows.  Chunk
metadata records the first/last pending row index as in the source. -/
def recursiveFallbackChunk (cols : List String) (rows : List Row)
    (chunkSize overlap : ℕ) : Except String (ChunkingResult Row) := do
  let _ ← validateInput rows
  let texts := rows.map (rowToPipeText cols)
  let groups := recFallbackLoop texts chunkSize overlap
    (texts.zip (List.range rows.length)) [] "" 0
  let chunks := groups.map (fun g => g.filterMap (rows.get? ·))
  let metas := groups.enum.map (fun p =>
    { chunk_id := "recursive_chunk_" ++ pad4 p.1
      start_idx := p.2.headD 0
      end_idx := p.2.getLastD 0
      chunk_size := p.2.length
      method := "recursive" : ChunkMeta })
  pure { chunks := chunks
         metadata := metas
         method := "recursive"
         total_chunks := chunks.length
         quality_report := comprehensiveAssessment chunks rows }

/-! ## Document-based chunker (`DocumentBasedChunker.chunk`)

Token counting goes through `tiktoken` when available and otherwise through
the deterministic `len(text) // 4` approximation; the model abstracts the
estimator as a function `tok : String → ℕ`, with `charTokenCount` as the
in-repository fallback.  The key column is addressed by its index `kIdx`
into the column list. -/

/-- The deterministic fallback token estimate `len(group_text) // 4`. -/
def charTokenCount (s : String) : ℕ := s.length / 4

/-- `DocumentBasedChunker._dataframe_to_text`: optional header line of the
column names, then one `", "`-joined line per row (`NaN` cells render as
`""`), all joined by newlines; the empty frame renders as `""`. -/
def dfToText (cols : List String) (rows : List Row) (preserveHeaders : Bool) : String :=
  if rows.isEmpty then ""
  else
    let rowTexts := rows.map (fun r => String.intercalate ", " (r.map (·.getD "")))
    String.intercalate "\n"
      (if preserveHeaders then String.intercalate ", " cols :: rowTexts else rowTexts)

/-- The key value of a row: the cell at the key column's index. -/
def keyOf (r : Row) (kIdx : ℕ) : Option String := r.getD kIdx none

/-- Lexicographic (code-point) order on strings, stated on the character
list so that it evaluates inside the kernel; it agrees with `String.le`
(`String.le_iff_toList_le`). -/
def strLe (a b : String) : Prop := a.toList ≤ b.toList

instance : DecidableRel strLe :=
  fun a b => (inferInstance : Decidable (a.toList ≤ b.toList))

instance : IsTrans String strLe := ⟨fun _ _ _ h1 h2 => le_trans h1 h2⟩

instance : IsTotal String strLe := ⟨fun a b => le_total a.toList b.toList⟩

/-- `dataframe.groupby(key_column)` as iterated by the chunker: pandas (with
its default `sort=True, dropna=True`) yields one group per distinct non-null
key value, in ascending sorted key order, each group keeping the source row
order.  Rows whose key cell is null are dropped. -/
def pandasGroupby (rows : List Row) (kIdx : ℕ) : List (String × List Row) :=
  let keys := (rows.filterMap (keyOf · kIdx)).dedup
  (keys.insertionSort strLe).map
    (fun k => (k, rows.filter (fun r => keyOf r kIdx = some k)))

/-- First-occurrence deduplication: each value appears once, at the position
of its first occurrence. -/
def firstSeenDedup : List String → List String
  | [] => []
  | a :: as => a :: (firstSeenDedup as).filter (fun b => decide (b ≠ a))

/-- The order the specification describes for the emitted groups: one group
per distinct non-null key value, in first-seen order.  (Spec-side definition,
compared with `pandasGroupby` for the group-order claim.) -/
def firstSeenKeys (rows : List Row) (kIdx : ℕ) : List String :=
  firstSeenDedup (rows.filterMap (keyOf · kIdx))

/-- The document-based chunker's per-chunk `additional_metadata` facts that
the claims depend on, plus the `ChunkMetadata` size field. -/
structure DocChunkMeta where
  key_value : String
  token_count : ℕ
  group_size : ℕ
  is_subchunk : Bool
  subchunk_index : Option ℕ
  total_subchunks : Option ℕ
deriving Repr, DecidableEq

/-- The `for i in range(num_chunks)` sub-chunk loop for an over-limit group:
sub-chunk `i` covers group rows `[i*cs, (i+1)*cs)` — the final sub-chunk runs
to the end of the group — and the loop breaks when a sub-chunk would start at
or beyond the group's end.  Structural recursion on the remaining iteration
count, which starts at `num`. -/
def docSubLoop (cols : List String) (preserveHeaders : Bool) (tok : String → ℕ)
    (grp : List Row) (k : String) (cs num : ℕ) :
    ℕ → ℕ → List (List Row × DocChunkMeta)
  | _, 0 => []
  | i, rem + 1 =>
    let s := i * cs
    if grp.length ≤ s then []
    else
      let e := if i < num - 1 then (i + 1) * cs else grp.length
      let sub := (grp.drop s).take (e - s)
      (sub,
        { key_value := k
          token_count := tok (dfToText cols sub preserveHeaders)
          group_size := grp.length
          is_subchunk := true
          subchunk_index := some (i + 1)
          total_subchunks := some num : DocChunkMeta }) ::
        docSubLoop cols preserveHeaders tok grp k cs num (i + 1) rem

/-- The body of the `for key_value, group in grouped:` loop: render the group,
estimate its tokens, and either keep it whole (when within `token_limit`) or
split it into `token_count // token_limit + 1` sub-chunks of
`len(group) // num_chunks` rows each (the final one taking the remainder). -/
def docProcessGroup (cols : List String) (preserveHeaders : Bool)
    (tok : String → ℕ) (tokenLimit : ℕ) (k : String) (grp : List Row) :
    List (List Row × DocChunkMeta) :=
  let tc := tok (dfToText cols grp preserveHeaders)
  if tc ≤ tokenLimit then
    [(grp,
      { key_value := k
        token_count := tc
        group_size := grp.length
        is_subchunk := false
        subchunk_index := none
        total_subchunks := none : DocChunkMeta })]
  else
    let num := tc / tokenLimit + 1
    let cs := grp.length / num
    docSubLoop cols preserveHeaders tok grp k cs num 0 num

/-- The result of `DocumentBasedChunker.chunk`: the chunk/metadata pairs in
emission order plus the quality report. -/
structure DocChunkingResult where
  chunks : List (List Row × DocChunkMeta)
  quality_report : QualityReport
deriving Repr, DecidableEq

/-- `DocumentBasedChunker.chunk(dataframe, key_column, token_limit, ...)`:
validate the input and the key column, group by the key column, process each
group in the grouped order.  (`token_limit = 0` would make the Python split
arithmetic divide by zero and is outside the model; the contract requires
`token_limit > 0`.) -/
def documentBasedChunk (cols : List String) (rows : List Row) (kIdx : ℕ)
    (tokenLimit : ℕ) (preserveHeaders : Bool) (tok : String → ℕ) :
    Except String DocChunkingResult := do
  let _ ← validateInput rows
  if cols.length ≤ kIdx then throw "Key column not found in dataframe"
  else
    let chunks := (pandasGroupby rows kIdx).flatMap
      (fun g => docProcessGroup cols preserveHeaders tok tokenLimit g.1 g.2)
    pure { chunks := chunks
           quality_report := comprehensiveAssessment (chunks.map Prod.fst) rows }

/-! ## Vector storage (`storing.py`) and retrieval (`retrieval.py`)

Embeddings are rational vectors.  The embedding model itself is external
(`embed(texts) -> vectors`), so retrieval entrypoints take the query
embedding as an argument. -/

/-- Dot product of two embedding vectors (componentwise, truncating at the
shorter vector, as `np.dot` over equal-length vectors). -/
def dotQ : List ℚ → List ℚ → ℚ
  | a :: as, b :: bs => a * b + dotQ as bs
  | _, _ => 0

/-- Squared L2 norm of an embedding vector. -/
def sumSq (v : List ℚ) : ℚ := dotQ v v

/-- Exact rational square root, when it exists. -/
def ratSqrt (q : ℚ) : Option ℚ :=
  if q < 0 then none
  else
    let n := Nat.sqrt q.num.natAbs
    let d := Nat.sqrt q.den
    if n * n = q.num.natAbs ∧ d * d = q.den then some ((n : ℚ) / (d : ℚ)) else none

/-- The normalization `embedding / np.linalg.norm(embedding)` (skipped when
the norm is zero) that `FAISSVectorStore` applies to every stored vector and
every query vector.  The float square root is modelled exactly on vectors
whose L2 norm is rational; a vector with an irrational norm is outside the
model and kept unchanged. -/
def l2normalizeQ (v : List ℚ) : List ℚ :=
  match ratSqrt (sumSq v) with
  | some n => if 0 < n then v.map (· / n) else v
  | none => v

/-- One record of `FAISSVectorStore`: the stored (normalized) embedding plus
the side-table entries (`metadata_store`, `documents`) for its id.  Metadata
is the sanitized scalar mapping, modelled as string key/value pairs. -/
structure FaissRecord where
  id : String
  vec : List ℚ
  meta : List (String × String)
  doc : String
deriving Repr, DecidableEq

/-- The state of a `FAISSVectorStore`: the records in insertion order.  The
`id_to_index`/`index_to_id` maps are the positional indices of this list. -/
structure FaissStore where
  records : List FaissRecord
deriving Repr, DecidableEq

/-- `FAISSVectorStore.add`: normalize each embedding and append it together
with its side-table entries. -/
def faissAdd (st : FaissStore) (recs : List FaissRecord) : FaissStore :=
  { records := st.records ++ recs.map (fun r => { r with vec := l2normalizeQ r.vec }) }

/-- `FAISSVectorStore._matches_filter`: every filter key must be present in
the metadata with an equal value. -/
def matchesFilter (meta : List (String × String)) (w : List (String × String)) : Bool :=
  w.all (fun p => meta.lookup p.1 = some p.2)

/-- Modelled from the spec: the external `faiss.IndexFlatIP.search` call on
the in-memory ANN index — inner-product search over the stored vectors,
returning the `n` best `(internal index, inner product)` pairs, best first
(§4.6: "vectors are L2-normalized before insertion/query so that
inner-product search approximates cosine similarity"). -/
def faissIndexSearch (stored : List (List ℚ)) (q : List ℚ) (n : ℕ) : List (ℕ × ℚ) :=
  (((stored.enum.map (fun p => (p.1, dotQ q p.2))).insertionSort
    (fun a b => b.2 ≤ a.2)).take n)

/-- The per-query ranked result lists, in the ChromaDB result-dict format that
`FAISSVectorStore.query` also produces. -/
structure QueryResult where
  ids : List (List String)
  distances : List (List ℚ)
  metadatas : List (List (List (String × String)))
  documents : List (List String)
deriving Repr, DecidableEq

/-- `FAISSVectorStore.query`: an empty index short-circuits to the empty
result; otherwise each query vector is normalized, searched, mapped through
`index_to_id` and the side tables, and post-hoc filtered by metadata. -/
def faissQuery (st : FaissStore) (qs : List (List ℚ)) (nResults : ℕ)
    (w : Option (List (String × String))) : QueryResult :=
  if st.records.length = 0 then
    { ids := [[]], distances := [[]], metadatas := [[]], documents := [[]] }
  else
    let rows := qs.map (fun q =>
      let qn := l2normalizeQ q
      (faissIndexSearch (st.records.map (·.vec)) qn nResults).filterMap
        (fun hit =>
          match st.records.get? hit.1 with
          | some r =>
            match w with
            | some f => if matchesFilter r.meta f then some (r.id, hit.2, r.meta, r.doc) else none
            | none => some (r.id, hit.2, r.meta, r.doc)
          | none => none))
    { ids := rows.map (·.map (·.1))
      distances := rows.map (·.map (·.2.1))
      metadatas := rows.map (·.map (·.2.2.1))
      documents := rows.map (·.map (·.2.2.2)) }

/-- The post-processing `UnifiedRetriever.search` applies to Backend A's
native result (ChromaDB returns L2 distances): cosine requests map every
distance through `max(0, 1 - d/2)`, euclidean requests through `1/(1+d)`,
dot-product requests pass through; ids/metadatas/documents are untouched. -/
def chromaSearchTransform (metric : String) (native : QueryResult) : QueryResult :=
  if metric = "cosine" then
    { native with distances := native.distances.map (·.map (fun d => max 0 (1 - d / 2))) }
  else if metric = "euclidean" then
    { native with distances := native.distances.map (·.map (fun d => 1 / (1 + d))) }
  else native

/-- The FAISS branch of `UnifiedRetriever.search` (the query embedding is
supplied by the external model): validate the metric; for cosine, query the
store at `top_k` and return the result unchanged; otherwise over-fetch at
`min(top_k * 2, 100)`, for euclidean map distances through
`1/(2-d)` (guarded at `d ≥ 2` by the floor value `0.01`), and trim every
result list to `top_k`. -/
def faissSearchMetric (st : FaissStore) (qv : List ℚ) (topK : ℕ) (metric : String)
    (w : Option (List (String × String))) : Except String QueryResult :=
  if metric ≠ "cosine" ∧ metric ≠ "dot" ∧ metric ≠ "euclidean" then
    .error "Unsupported similarity metric"
  else if metric = "cosine" then
    .ok (faissQuery st [qv] topK w)
  else
    let r := faissQuery st [qv] (min (topK * 2) 100) w
    let r := if metric = "euclidean" then
        { r with distances := r.distances.map (·.map (fun d => if d < 2 then 1 / (2 - d) else 1/100)) }
      else r
    .ok { ids := r.ids.map (·.take topK)
          distances := r.distances.map (·.take topK)
          metadatas := r.metadatas.map (·.take topK)
          documents := r.documents.map (·.take topK) }

/-- The distance lists of a retrieval result, `[]` on the error case. -/
def searchDistances : Except String QueryResult → List (List ℚ)
  | .ok r => r.distances
  | .error _ => []

/-! ## Statements taken from the specification's wording

Definitions in this block follow the specification's description of a
behaviour, to be compared against the embedded source. -/

/-- The specification's closed-form quality score: `1.0`, minus
`2*(0.95-coverage)` when coverage is below `0.95`, minus `0.1` per empty
chunk, `0.05` per very-small chunk and `0.2` per very-large chunk, minus a
flat `0.1` on high size deviation, clamped to `[0,1]`. -/
def claimQualityScore (cov : ℚ) (emptyC smallC largeC : ℕ) (stdHigh : Bool) : ℚ :=
  max 0 (min 1
    (1 - (if cov < 95/100 then 2 * (95/100 - cov) else 0)
       - (emptyC : ℚ) * (1/10) - (smallC : ℚ) * (5/100) - (largeC : ℚ) * (2/10)
       - (if stdHigh then 1/10 else 0)))

/-- The rank of a quality label in the band order POOR < FAIR < GOOD <
EXCELLENT. -/
def labelRank (s : String) : ℕ :=
  if s = "EXCELLENT" then 3 else if s = "GOOD" then 2 else if s = "FAIR" then 1 else 0

/-! ## C8: the Quality Assessor on an empty chunk list -/

/-- C8: on `chunks = []` and any source dataframe, the Quality Assessor
returns (never raises) the zero-chunk report: `overall_quality = "POOR"`,
`total_chunks = 0`, coverage `0`, no `quality_score` entry, and the explicit
"No chunks generated" error flag. -/
theorem quality_assessor_empty_chunks (β : Type) (original : List β) :
    comprehensiveAssessment ([] : List (List ℕ)) original =
      { overall_quality := "POOR"
        quality_score := none
        coverage := 0
        total_chunks := 0
        total_rows_processed := none
        original_rows := none
        stats := none
        empty_chunks := none
        very_small_chunks := none
        very_large_chunks := none
        error := some "No chunks generated" } := rfl

/-! ## C9: Backend B query on an empty store -/

/-- C9: `FAISSVectorStore.query` on a store holding no vectors returns the
empty result set (empty ids, distances, metadatas and documents) for every
choice of query embeddings, result count and metadata filter, instead of
raising. -/
theorem faiss_query_empty_store (st : FaissStore) (h : st.records = [])
    (qs : List (List ℚ)) (n : ℕ) (w : Option (List (String × String))) :
    faissQuery st qs n w =
      { ids := [[]], distances := [[]], metadatas := [[]], documents := [[]] } := by
  simp [faissQuery, h]

/-- Witness for C9 at a concrete empty store and query. -/
theorem faiss_query_empty_store_witness :
    (FaissStore.mk []).records = [] ∧
    faissQuery (FaissStore.mk []) [[1, 0]] 5 none =
      { ids := [[]], distances := [[]], metadatas := [[]], documents := [[]] } :=
  ⟨rfl, faiss_query_empty_store (FaissStore.mk []) rfl [[1, 0]] 5 none⟩

/-! ## C10: every chunking strategy rejects an empty dataset -/

/-- C10: all four chunking strategies run `validate_input` first, so chunking
an empty (zero-row) dataset fails with an error instead of producing a
`ChunkingResult`; every successful result therefore comes from a non-empty
dataset. -/
theorem chunkers_reject_empty_dataset (α : Type) (cs ov n kIdx tl rcs rov : ℕ)
    (cols : List String) (ph : Bool) (tok : String → ℕ) :
    fixedSizeChunk ([] : List α) cs ov = .error "DataFrame cannot be empty" ∧
    recursiveFallbackChunk cols [] rcs rov = .error "DataFrame cannot be empty" ∧
    documentBasedChunk cols [] kIdx tl ph tok = .error "DataFrame cannot be empty" ∧
    semanticFallbackChunk ([] : List α) n = .error "DataFrame cannot be empty" :=
  ⟨rfl, rfl, rfl, rfl⟩

/-! ## C1: fixed-size chunking with zero overlap is an exact partition -/

/-- With step equal to the chunk size, the fixed-size window loop started at
`start` concatenates to the tail `df.drop start`, provided the iteration
budget covers the remaining rows. -/
theorem fixedSizeLoop_join_eq_drop (df : List α) (cs : ℕ) (hcs : 1 ≤ cs) :
    ∀ fuel start, df.length ≤ start + fuel * cs →
      ((fixedSizeLoop df cs cs fuel start).map Prod.snd).flatten = df.drop start := by
  intro fuel
  induction fuel with
  | zero =>
    intro start h
    simp only [Nat.zero_mul, Nat.add_zero] at h
    simp [fixedSizeLoop, List.drop_eq_nil_of_le h]
  | succ fuel ih =>
    intro start h
    by_cases hlt : start < df.length
    · by_cases hend : df.length ≤ start + cs
      · have htail : (df.drop start).length ≤ cs := by
          simp only [List.length_drop]
          omega
        simp [fixedSizeLoop, hlt, hend, List.take_of_length_le htail]
      · have hrec := ih (start + cs) (by
          have : (fuel + 1) * cs = fuel * cs + cs := by ring
          omega)
        simp only [fixedSizeLoop, if_pos hlt, if_neg hend, List.map_cons, List.flatten_cons, hrec]
        rw [← List.drop_drop, List.take_append_drop]
    · simp [fixedSizeLoop, hlt, List.drop_eq_nil_of_le (Nat.le_of_not_lt hlt)]

/-- C1: for a non-empty dataset and positive `chunk_size`, fixed-size
chunking with `overlap = 0` succeeds, its chunks concatenate in order to the
source dataset exactly (each row in exactly one chunk, source order, no
duplication), and the quality report's coverage is `1`. -/
theorem fixed_size_zero_overlap_partition (df : List α) (cs : ℕ)
    (hdf : df ≠ []) (hcs : 0 < cs) :
    ∃ r, fixedSizeChunk df cs 0 = .ok r ∧ r.chunks.flatten = df ∧
      r.quality_report.coverage = 1 := by
  have hne : df.isEmpty = false := by simp [List.isEmpty_iff, hdf]
  have hstep : max 1 cs = cs := by omega
  have hjoin :
      ((fixedSizeLoop df cs cs df.length 0).map Prod.snd).flatten = df := by
    have := fixedSizeLoop_join_eq_drop df cs hcs df.length 0
      (by simpa using Nat.le_mul_of_pos_right df.length hcs)
    simpa using this
  have hchunks : (fixedSizeResult df cs 0).chunks =
      (fixedSizeLoop df cs cs df.length 0).map Prod.snd := by
    simp [fixedSizeResult, hstep]
  refine ⟨fixedSizeResult df cs 0, ?_, ?_, ?_⟩
  · simp [fixedSizeChunk, validateInput, hne, Nat.pos_iff_ne_zero.mp hcs,
      Nat.not_le.mpr hcs]
  · rw [hchunks, hjoin]
  · have hlen : 0 < df.length := List.length_pos.mpr hdf
    have hrows :
        totalRowsChunked ((fixedSizeLoop df cs cs df.length 0).map Prod.snd) =
          df.length := by
      rw [totalRowsChunked, chunkSizes, ← List.length_flatten, hjoin]
    have hchunks_ne :
        ((fixedSizeLoop df cs cs df.length 0).map Prod.snd).isEmpty = false := by
      rw [List.isEmpty_eq_false_iff_exists_mem]
      rcases hl : (fixedSizeLoop df cs cs df.length 0).map Prod.snd with _ | ⟨c, rest⟩
      · rw [hl] at hjoin
        simp only [List.flatten_nil] at hjoin
        exact absurd hjoin.symm hdf
      · exact ⟨c, by simp⟩
    have hq : (fixedSizeResult df cs 0).quality_report =
        comprehensiveAssessment ((fixedSizeLoop df cs cs df.length 0).map Prod.snd) df := by
      simp [fixedSizeResult, hstep]
    rw [hq, comprehensiveAssessment, hchunks_ne]
    simp [chunkCoverage, hlen, hrows, div_self, Nat.cast_ne_zero, Nat.pos_iff_ne_zero.mp hlen]

/-- Witness for C1 on the dataset `[1, 2, 3]` with `chunk_size = 2`. -/
theorem fixed_size_zero_overlap_partition_witness :
    ([1, 2, 3] : List ℕ) ≠ [] ∧ 0 < 2 ∧
    ∃ r, fixedSizeChunk ([1, 2, 3] : List ℕ) 2 0 = .ok r ∧ r.chunks.flatten = [1, 2, 3] ∧
      r.quality_report.coverage = 1 :=
  ⟨by decide, by decide, fixed_size_zero_overlap_partition [1, 2, 3] 2 (by decide) (by decide)⟩

/-! ## C2: the quality score's closed form and the label bands -/

/-- A guarded count penalty equals the unguarded subtraction: subtracting
`n * rate` only when `n > 0` is the same as always subtracting it. -/
theorem ite_sub_count (x r : ℚ) (n : ℕ) :
    (if 0 < n then x - (n : ℚ) * r else x) = x - (n : ℚ) * r := by
  rcases Nat.eq_zero_or_pos n with h | h
  · subst h; simp
  · simp [h]

/-- The sequential penalty computation equals the specification's closed
form. -/
theorem qualityScore_closed (chunks : List (List α)) (original : List β) :
    qualityScore chunks original =
      claimQualityScore (chunkCoverage chunks original) (emptyChunkCount chunks)
        (verySmallChunkCount chunks) (veryLargeChunkCount chunks original)
        (highSizeStd chunks) := by
  unfold qualityScore claimQualityScore
  simp only [ite_sub_count]
  split_ifs <;> ring_nf

/-- C2: for a non-empty chunk list over a non-empty source, the reported
`quality_score` is the clamp to `[0,1]` of `1` minus the five penalties of
the claim, and `overall_quality` is the monotone threshold labelling of the
score at `0.4 / 0.6 / 0.8`, with EXCELLENT exactly when the score is at
least `0.8`. -/
theorem quality_score_formula_and_labels (chunks : List (List α)) (original : List β)
    (hc : chunks ≠ []) (ho : original ≠ []) :
    (comprehensiveAssessment chunks original).quality_score =
      some (claimQualityScore (chunkCoverage chunks original) (emptyChunkCount chunks)
        (verySmallChunkCount chunks) (veryLargeChunkCount chunks original)
        (highSizeStd chunks)) ∧
    (comprehensiveAssessment chunks original).overall_quality =
      qualityLabel (qualityScore chunks original) ∧
    ((comprehensiveAssessment chunks original).overall_quality = "EXCELLENT" ↔
      8/10 ≤ qualityScore chunks original) ∧
    (∀ q q' : ℚ, q ≤ q' → labelRank (qualityLabel q) ≤ labelRank (qualityLabel q')) := by
  have hne : chunks.isEmpty = false := by simp [List.isEmpty_iff, hc]
  refine ⟨?_, ?_, ?_, ?_⟩
  · simp [comprehensiveAssessment, hne, qualityScore_closed]
  · simp [comprehensiveAssessment, hne]
  · simp only [comprehensiveAssessment, hne, Bool.false_eq_true, if_false]
    unfold qualityLabel
    split_ifs with h1 h2 h3 <;> simp [h1]
  · intro q q' h
    unfold qualityLabel
    split_ifs <;> first | decide | (exfalso; linarith)

/-- Witness for C2 on the chunk list `[[0,1],[2,3]]` over a four-row source. -/
theorem quality_score_formula_and_labels_witness :
    ([[0, 1], [2, 3]] : List (List ℕ)) ≠ [] ∧ List.range 4 ≠ [] ∧
    ((comprehensiveAssessment [[0, 1], [2, 3]] (List.range 4)).quality_score =
      some (claimQualityScore (chunkCoverage [[0, 1], [2, 3]] (List.range 4))
        (emptyChunkCount [[0, 1], [2, 3]]) (verySmallChunkCount [[0, 1], [2, 3]])
        (veryLargeChunkCount [[0, 1], [2, 3]] (List.range 4))
        (highSizeStd [[0, 1], [2, 3]])) ∧
    (comprehensiveAssessment [[0, 1], [2, 3]] (List.range 4)).overall_quality =
      qualityLabel (qualityScore [[0, 1], [2, 3]] (List.range 4)) ∧
    ((comprehensiveAssessment [[0, 1], [2, 3]] (List.range 4)).overall_quality = "EXCELLENT" ↔
      8/10 ≤ qualityScore [[0, 1], [2, 3]] (List.range 4)) ∧
    (∀ q q' : ℚ, q ≤ q' → labelRank (qualityLabel q) ≤ labelRank (qualityLabel q'))) :=
  ⟨by decide, by decide,
    quality_score_formula_and_labels [[0, 1], [2, 3]] (List.range 4) (by decide) (by decide)⟩

/-! ## C5: the semantic fallback partition -/

/-- One block-step bound: `i*cs + cs` never exceeds `(i + (rem+1)) * cs`. -/
theorem tile_step_le (i rem cs : ℕ) : i * cs + cs ≤ (i + (rem + 1)) * cs := by
  have h1 : (i + 1) * cs ≤ (i + (rem + 1)) * cs := Nat.mul_le_mul_right cs (by omega)
  calc i * cs + cs = (i + 1) * cs := by ring
    _ ≤ (i + (rem + 1)) * cs := h1

/-- The fallback block loop concatenates to the tail `df.drop (i*cs)`
whenever the remaining iterations exactly tile the remaining rows. -/
theorem semanticFallbackLoop_flatten (df : List α) (cs : ℕ) :
    ∀ rem i, df.length = (i + rem) * cs →
      (semanticFallbackLoop df cs rem i).flatten = df.drop (i * cs) := by
  intro rem
  induction rem with
  | zero =>
    intro i h
    simp only [Nat.add_zero] at h
    simp [semanticFallbackLoop, List.drop_eq_nil_of_le h.le]
  | succ rem ih =>
    intro i h
    by_cases hlt : i * cs < df.length
    · have hrec := ih (i + 1) (by rw [h]; ring)
      simp only [semanticFallbackLoop, if_pos hlt, List.flatten_cons, hrec]
      have : (i + 1) * cs = i * cs + cs := by ring
      rw [this, ← List.drop_drop, List.take_append_drop]
    · have hcs0 : cs = 0 := by
        rcases Nat.eq_zero_or_pos cs with h0 | h0
        · exact h0
        · exfalso
          have h2 := tile_step_le i rem cs
          rw [← h] at h2
          omega
      have hdf : df.length = 0 := by rw [h, hcs0]; ring
      simp [semanticFallbackLoop, hlt, List.eq_nil_of_length_eq_zero hdf]

/-- The fallback block loop emits exactly the remaining number of blocks
under the same tiling, for a positive block size. -/
theorem semanticFallbackLoop_length (df : List α) (cs : ℕ) (hcs : 0 < cs) :
    ∀ rem i, df.length = (i + rem) * cs →
      (semanticFallbackLoop df cs rem i).length = rem := by
  intro rem
  induction rem with
  | zero => intro i _; simp [semanticFallbackLoop]
  | succ rem ih =>
    intro i h
    have h2 := tile_step_le i rem cs
    rw [← h] at h2
    have hlt : i * cs < df.length := by omega
    simp only [semanticFallbackLoop, if_pos hlt, List.length_cons]
    rw [ih (i + 1) (by rw [h]; ring)]

/-- Every block the fallback loop emits has exactly `cs` rows under the same
tiling. -/
theorem semanticFallbackLoop_sizes (df : List α) (cs : ℕ) (hcs : 0 < cs) :
    ∀ rem i, df.length = (i + rem) * cs →
      ∀ c ∈ semanticFallbackLoop df cs rem i, c.length = cs := by
  intro rem
  induction rem with
  | zero => intro i _ c hc; simp [semanticFallbackLoop] at hc
  | succ rem ih =>
    intro i h c hc
    have h2 := tile_step_le i rem cs
    rw [← h] at h2
    have hlt : i * cs < df.length := by
      have hcpos : 0 < cs := hcs
      omega
    simp only [semanticFallbackLoop, if_pos hlt, List.mem_cons] at hc
    rcases hc with rfl | hc
    · simp only [List.length_take, List.length_drop]
      omega
    · exact ih (i + 1) (by rw [h]; ring) c hc

/-- C5 (amended): when `n_clusters` divides the row count of a non-empty
dataset, the semantic fallback partitions it into `n_clusters` contiguous
blocks of exactly `len/n_clusters` rows whose concatenation is the source;
in particular `n_clusters = 3` on a 9-row dataset gives 3 chunks of 3 rows.
(When `n_clusters` does not divide the row count the fallback can fail to
cover the dataset: on 10 rows with `n_clusters = 3` the final row appears in
no chunk — see the counterexample.) -/
theorem semantic_fallback_partition (df : List α) (n : ℕ)
    (hdf : df ≠ []) (hdvd : n ∣ df.length) :
    ∃ r, semanticFallbackChunk df n = .ok r ∧ r.chunks.flatten = df ∧
      r.chunks.length = n ∧ ∀ c ∈ r.chunks, c.length = df.length / n := by
  have hne : df.isEmpty = false := by simp [List.isEmpty_iff, hdf]
  have hlen : 0 < df.length := List.length_pos.mpr hdf
  have hn : 0 < n := by
    rcases Nat.eq_zero_or_pos n with h0 | h0
    · subst h0
      rw [Nat.zero_dvd] at hdvd
      omega
    · exact h0
  have hcs : 0 < df.length / n := Nat.div_pos (Nat.le_of_dvd hlen hdvd) hn
  have hmax : max 1 (df.length / n) = df.length / n := by omega
  have htile : df.length = (0 + n) * (df.length / n) := by
    rw [Nat.zero_add, Nat.mul_div_cancel' hdvd]
  have hchunks : (semanticFallbackResult df n).chunks =
      semanticFallbackLoop df (df.length / n) n 0 := by
    simp [semanticFallbackResult, hmax]
  refine ⟨semanticFallbackResult df n, ?_, ?_, ?_, ?_⟩
  · simp [semanticFallbackChunk, validateInput, hne]
  · rw [hchunks]
    simpa using semanticFallbackLoop_flatten df (df.length / n) n 0 htile
  · rw [hchunks]
    exact semanticFallbackLoop_length df (df.length / n) hcs n 0 htile
  · rw [hchunks]
    exact semanticFallbackLoop_sizes df (df.length / n) hcs n 0 htile

/-- Witness for C5 (amended): the 9-row dataset with `n_clusters = 3`. -/
theorem semantic_fallback_partition_witness :
    List.range 9 ≠ [] ∧ 3 ∣ (List.range 9).length ∧
    (∃ r, semanticFallbackChunk (List.range 9) 3 = .ok r ∧
      r.chunks.flatten = List.range 9 ∧ r.chunks.length = 3 ∧
      ∀ c ∈ r.chunks, c.length = (List.range 9).length / 3) :=
  ⟨by decide, by decide,
    semantic_fallback_partition (List.range 9) 3 (by decide) (by decide)⟩

/-- C5 counterexample: on a 10-row dataset with `n_clusters = 3` the fallback
emits blocks covering only the first 9 rows — the final row is in no chunk,
so the claimed exact partition fails for non-divisible row counts. -/
theorem semantic_fallback_drops_rows :
    (semanticFallbackChunk (List.range 10) 3).toOption.map (fun r => r.chunks.flatten) =
      some (List.range 9) ∧ List.range 9 ≠ List.range 10 := by
  constructor
  · rfl
  · decide

/-! ## C4: the order of the emitted document groups -/

/-- Membership in the first-occurrence deduplication is membership in the
original list. -/
theorem mem_firstSeenDedup (l : List String) (x : String) :
    x ∈ firstSeenDedup l ↔ x ∈ l := by
  induction l with
  | nil => simp [firstSeenDedup]
  | cons a as ih =>
    simp only [firstSeenDedup, List.mem_cons, List.mem_filter, ih,
      decide_eq_true_eq]
    by_cases hx : x = a
    · simp [hx]
    · simp [hx]

/-- The first-occurrence deduplication has no duplicates. -/
theorem nodup_firstSeenDedup (l : List String) : (firstSeenDedup l).Nodup := by
  induction l with
  | nil => simp [firstSeenDedup]
  | cons a as ih =>
    rw [firstSeenDedup, List.nodup_cons]
    constructor
    · intro hmem
      rw [List.mem_filter] at hmem
      simp at hmem
    · exact ih.filter _

/-- `List.dedup` and the first-occurrence deduplication are permutations of
each other (both are duplicate-free with the same members). -/
theorem dedup_perm_firstSeenDedup (l : List String) :
    l.dedup.Perm (firstSeenDedup l) :=
  (List.perm_ext_iff_of_nodup l.nodup_dedup (nodup_firstSeenDedup l)).mpr
    (fun a => by rw [List.mem_dedup, mem_firstSeenDedup])

/-- C4 (amended): `groupby` emits the groups in ascending sorted order of the
key values (the pandas default `sort=True`), not in first-seen order; the
emitted keys are a permutation of the first-seen distinct keys, and each
group holds exactly the rows carrying its key, in source order. -/
theorem document_groups_sorted (rows : List Row) (kIdx : ℕ) :
    ((pandasGroupby rows kIdx).map Prod.fst).Sorted (· ≤ ·) ∧
    ((pandasGroupby rows kIdx).map Prod.fst).Perm (firstSeenKeys rows kIdx) ∧
    ∀ p ∈ pandasGroupby rows kIdx,
      p.2 = rows.filter (fun r => keyOf r kIdx = some p.1) := by
  have hfst : (pandasGroupby rows kIdx).map Prod.fst =
      ((rows.filterMap (keyOf · kIdx)).dedup).insertionSort strLe := by
    simp [pandasGroupby, Function.comp_def]
  refine ⟨?_, ?_, ?_⟩
  · rw [hfst]
    refine (List.sorted_insertionSort strLe _).imp ?_
    intro a b h
    rw [String.le_iff_toList_le]
    exact h
  · rw [hfst, firstSeenKeys]
    exact (List.perm_insertionSort strLe _).trans
      (dedup_perm_firstSeenDedup (rows.filterMap (keyOf · kIdx)))
  · intro p hp
    simp only [pandasGroupby, List.mem_map] at hp
    obtain ⟨k, _, rfl⟩ := hp
    rfl

/-- C4 counterexample: on a two-row dataset whose keys appear in the order
`"b"`, `"a"`, the document-based chunker emits the `"a"` group first — sorted
order, not the claimed first-seen order. -/
theorem document_groups_not_first_seen :
    (documentBasedChunk ["k"] [[some "b"], [some "a"]] 0 1000 true charTokenCount).toOption.map
        (fun r => r.chunks.map (fun c => c.2.key_value)) = some ["a", "b"] ∧
    firstSeenKeys [[some "b"], [some "a"]] 0 = ["b", "a"] ∧
    (["a", "b"] : List String) ≠ ["b", "a"] := by
  refine ⟨by decide, by decide, by decide⟩

/-! ## C6: the sub-chunk split of an over-limit group -/

/-- The first `num - 1` equal blocks of `len / num` rows never exhaust a
nonempty list of `len` rows. -/
theorem pre_tile_lt (len num : ℕ) (hlen : 0 < len) (hnum : 0 < num) :
    (num - 1) * (len / num) < len := by
  rcases Nat.eq_zero_or_pos (len / num) with h0 | h0
  · rw [h0]
    simpa using hlen
  · have h1 : num * (len / num) ≤ len := Nat.mul_div_le len num
    have h2 : (num - 1) * (len / num) + (len / num) = num * (len / num) := by
      calc (num - 1) * (len / num) + (len / num)
          = (num - 1 + 1) * (len / num) := by ring
      _ = num * (len / num) := by rw [Nat.sub_add_cancel hnum]
    omega

/-- Under the tiling bound `(num-1)*cs < len(grp)`, the sub-chunk loop never
breaks and concatenates to the remaining group tail. -/
theorem docSubLoop_flatten (cols : List String) (ph : Bool) (tok : String → ℕ)
    (grp : List Row) (k : String) (cs num : ℕ)
    (hnb : (num - 1) * cs < grp.length) :
    ∀ rem i, 1 ≤ rem → i + rem = num →
      ((docSubLoop cols ph tok grp k cs num i rem).map Prod.fst).flatten =
        grp.drop (i * cs) := by
  intro rem
  induction rem with
  | zero => omega
  | succ rem ih =>
    intro i _ hinv
    have hile : i ≤ num - 1 := by omega
    have hs : i * cs < grp.length :=
      lt_of_le_of_lt (Nat.mul_le_mul_right cs hile) hnb
    rcases Nat.eq_zero_or_pos rem with hrem | hrem
    · subst hrem
      have hi : ¬ i < num - 1 := by omega
      have hdrop : (grp.drop (i * cs)).length ≤ grp.length - i * cs := by
        simp [List.length_drop]
      simp [docSubLoop, Nat.not_le.mpr hs, hi, List.take_of_length_le hdrop]
    · have hi : i < num - 1 := by omega
      have hrec := ih (i + 1) (by omega) (by omega)
      have hcs_eq : (i + 1) * cs - i * cs = cs := by
        have : (i + 1) * cs = i * cs + cs := by ring
        omega
      simp only [docSubLoop, if_neg (Nat.not_le.mpr hs), if_pos hi,
        List.map_cons, List.flatten_cons, hrec, hcs_eq]
      have h2 : (i + 1) * cs = i * cs + cs := by ring
      rw [h2, ← List.drop_drop, List.take_append_drop]

/-- Under the same bound the sub-chunk loop emits exactly the remaining
number of sub-chunks. -/
theorem docSubLoop_length (cols : List String) (ph : Bool) (tok : String → ℕ)
    (grp : List Row) (k : String) (cs num : ℕ)
    (hnb : (num - 1) * cs < grp.length) :
    ∀ rem i, i + rem = num →
      (docSubLoop cols ph tok grp k cs num i rem).length = rem := by
  intro rem
  induction rem with
  | zero => intro i _; simp [docSubLoop]
  | succ rem ih =>
    intro i hinv
    have hile : i ≤ num - 1 := by omega
    have hs : i * cs < grp.length :=
      lt_of_le_of_lt (Nat.mul_le_mul_right cs hile) hnb
    simp only [docSubLoop, if_neg (Nat.not_le.mpr hs), List.length_cons]
    rw [ih (i + 1) (by omega)]

/-- Under the same bound, the emitted sub-chunk tags are `is_subchunk = true`,
`total_subchunks = num`, and consecutive one-based `subchunk_index`es. -/
theorem docSubLoop_tags (cols : List String) (ph : Bool) (tok : String → ℕ)
    (grp : List Row) (k : String) (cs num : ℕ)
    (hnb : (num - 1) * cs < grp.length) :
    ∀ rem i, i + rem = num →
      (docSubLoop cols ph tok grp k cs num i rem).map
          (fun c => (c.2.is_subchunk, c.2.subchunk_index, c.2.total_subchunks)) =
        (List.range rem).map (fun j => (true, some (i + j + 1), some num)) := by
  intro rem
  induction rem with
  | zero => intro i _; simp [docSubLoop]
  | succ rem ih =>
    intro i hinv
    have hile : i ≤ num - 1 := by omega
    have hs : i * cs < grp.length :=
      lt_of_le_of_lt (Nat.mul_le_mul_right cs hile) hnb
    simp only [docSubLoop, if_neg (Nat.not_le.mpr hs), List.map_cons]
    rw [ih (i + 1) (by omega), List.range_succ_eq_map, List.map_cons, List.map_map]
    refine congrArg₂ _ (by simp) ?_
    refine List.map_congr_left ?_
    intro j _
    simp only [Function.comp_apply]
    have : i + 1 + j + 1 = i + (j + 1) + 1 := by omega
    rw [this]

/-- C6 (amended): a group whose estimated `token_count` exceeds `token_limit`
is split into exactly `token_count / token_limit + 1` contiguous sub-chunks
(`ceil` only when `token_limit` does not divide `token_count`; one more than
`ceil` otherwise), concatenating back to the group, each tagged
`is_subchunk = true` with `total_subchunks` equal to that count and
consecutive one-based `subchunk_index`es. -/
theorem doc_overlimit_split (cols : List String) (ph : Bool) (tok : String → ℕ)
    (tl : ℕ) (k : String) (grp : List Row) (htl : 0 < tl) (hgrp : grp ≠ [])
    (hover : tl < tok (dfToText cols grp ph)) :
    (docProcessGroup cols ph tok tl k grp).length =
      tok (dfToText cols grp ph) / tl + 1 ∧
    ((docProcessGroup cols ph tok tl k grp).map Prod.fst).flatten = grp ∧
    (∀ c ∈ docProcessGroup cols ph tok tl k grp,
      c.2.is_subchunk = true ∧
      c.2.total_subchunks = some (tok (dfToText cols grp ph) / tl + 1)) ∧
    (docProcessGroup cols ph tok tl k grp).map (fun c => c.2.subchunk_index) =
      (List.range (tok (dfToText cols grp ph) / tl + 1)).map (fun j => some (j + 1)) := by
  have hlen : 0 < grp.length := List.length_pos.mpr hgrp
  have hnumpos : 0 < tok (dfToText cols grp ph) / tl + 1 := Nat.succ_pos _
  have hproc : docProcessGroup cols ph tok tl k grp =
      docSubLoop cols ph tok grp k
        (grp.length / (tok (dfToText cols grp ph) / tl + 1))
        (tok (dfToText cols grp ph) / tl + 1) 0
        (tok (dfToText cols grp ph) / tl + 1) := by
    simp only [docProcessGroup]
    rw [if_neg (Nat.not_le.mpr hover)]
  have hnb : ((tok (dfToText cols grp ph) / tl + 1) - 1) *
      (grp.length / (tok (dfToText cols grp ph) / tl + 1)) < grp.length :=
    pre_tile_lt grp.length (tok (dfToText cols grp ph) / tl + 1) hlen hnumpos
  have htags := docSubLoop_tags cols ph tok grp k
    (grp.length / (tok (dfToText cols grp ph) / tl + 1))
    (tok (dfToText cols grp ph) / tl + 1) hnb
    (tok (dfToText cols grp ph) / tl + 1) 0 (by omega)
  refine ⟨?_, ?_, ?_, ?_⟩
  · rw [hproc]
    exact docSubLoop_length cols ph tok grp k _ _ hnb _ 0 (by omega)
  · rw [hproc]
    simpa using
      docSubLoop_flatten cols ph tok grp k _ _ hnb _ 0 (by omega) (by omega)
  · intro c hc
    rw [hproc] at hc
    have hmem : (c.2.is_subchunk, c.2.subchunk_index, c.2.total_subchunks) ∈
        (docSubLoop cols ph tok grp k
          (grp.length / (tok (dfToText cols grp ph) / tl + 1))
          (tok (dfToText cols grp ph) / tl + 1) 0
          (tok (dfToText cols grp ph) / tl + 1)).map
          (fun c => (c.2.is_subchunk, c.2.subchunk_index, c.2.total_subchunks)) :=
      List.mem_map_of_mem _ hc
    rw [htags] at hmem
    simp only [List.mem_map, List.mem_range] at hmem
    obtain ⟨j, _, hj⟩ := hmem
    refine ⟨?_, ?_⟩
    · have := congrArg (fun p : Bool × Option ℕ × Option ℕ => p.1) hj
      simpa using this.symm
    · have := congrArg (fun p : Bool × Option ℕ × Option ℕ => p.2.2) hj
      simpa using this.symm
  · rw [hproc]
    have := congrArg (List.map (fun p : Bool × Option ℕ × Option ℕ => p.2.1)) htags
    rw [List.map_map, List.map_map] at this
    simpa [Function.comp_def] using this

/-- Witness for C6 (amended) on a one-row group with `token_count = 2` and
`token_limit = 1`. -/
theorem doc_overlimit_split_witness :
    0 < 1 ∧ ([[some "bbbbbb"]] : List Row) ≠ [] ∧
    1 < charTokenCount (dfToText ["k"] [[some "bbbbbb"]] true) ∧
    ((docProcessGroup ["k"] true charTokenCount 1 "x" [[some "bbbbbb"]]).length =
      charTokenCount (dfToText ["k"] [[some "bbbbbb"]] true) / 1 + 1 ∧
    ((docProcessGroup ["k"] true charTokenCount 1 "x" [[some "bbbbbb"]]).map
        Prod.fst).flatten = [[some "bbbbbb"]] ∧
    (∀ c ∈ docProcessGroup ["k"] true charTokenCount 1 "x" [[some "bbbbbb"]],
      c.2.is_subchunk = true ∧
      c.2.total_subchunks =
        some (charTokenCount (dfToText ["k"] [[some "bbbbbb"]] true) / 1 + 1)) ∧
    (docProcessGroup ["k"] true charTokenCount 1 "x" [[some "bbbbbb"]]).map
        (fun c => c.2.subchunk_index) =
      (List.range (charTokenCount (dfToText ["k"] [[some "bbbbbb"]] true) / 1 + 1)).map
        (fun j => some (j + 1))) :=
  ⟨by decide, by decide, by decide,
    doc_overlimit_split ["k"] true charTokenCount 1 "x" [[some "bbbbbb"]]
      (by decide) (by decide) (by decide)⟩

/-- C6 counterexample: with `token_count = 2` and `token_limit = 1` the code
emits `2/1 + 1 = 3` sub-chunks while `ceil(2/1) = 2`, so the claimed
`ceil(token_count/token_limit)` count is wrong on exact multiples. -/
theorem doc_split_count_not_ceil :
    (documentBasedChunk ["k"] [[some "bbbbbb"]] 0 1 true charTokenCount).toOption.map
        (fun r => r.chunks.length) = some 3 ∧
    charTokenCount (dfToText ["k"] [[some "bbbbbb"]] true) = 2 ∧
    (charTokenCount (dfToText ["k"] [[some "bbbbbb"]] true) + 1 - 1) / 1 = 2 ∧
    (3 : ℕ) ≠ 2 := by
  refine ⟨by decide, by decide, by decide, by decide⟩

/-! ## C3: the range of cosine similarity scores -/

/-- A vector's squared norm is nonnegative. -/
theorem sumSq_nonneg (v : List ℚ) : 0 ≤ sumSq v := by
  induction v with
  | nil => simp [sumSq, dotQ]
  | cons a as ih =>
    have : sumSq (a :: as) = a * a + sumSq as := rfl
    rw [this]
    exact add_nonneg (mul_self_nonneg a) ih

/-- Cauchy-Schwarz for the list dot product. -/
theorem dotQ_sq_le (u : List ℚ) : ∀ v, (dotQ u v) ^ 2 ≤ sumSq u * sumSq v := by
  induction u with
  | nil =>
    intro v
    simp [dotQ, sumSq]
  | cons a as ih =>
    intro v
    cases v with
    | nil =>
      simp [dotQ, sumSq]
    | cons b bs =>
      have hD := ih bs
      have hU := sumSq_nonneg as
      have hV := sumSq_nonneg bs
      have h1 : dotQ (a :: as) (b :: bs) = a * b + dotQ as bs := rfl
      have h2 : sumSq (a :: as) = a * a + sumSq as := rfl
      have h3 : sumSq (b :: bs) = b * b + sumSq bs := rfl
      rw [h1, h2, h3]
      rcases eq_or_lt_of_le hV with hV0 | hVpos
      · have hD0 : dotQ as bs = 0 := by
          have h4 : dotQ as bs ^ 2 ≤ 0 := by
            rw [← hV0] at hD
            simpa using hD
          have h5 := sq_nonneg (dotQ as bs)
          exact pow_eq_zero_iff (two_ne_zero) |>.mp (le_antisymm h4 h5)
        rw [← hV0, hD0]
        nlinarith [mul_nonneg hU (mul_self_nonneg b)]
      · have key : sumSq bs *
              ((a * a + sumSq as) * (b * b + sumSq bs) - (a * b + dotQ as bs) ^ 2) =
            (a * sumSq bs - b * dotQ as bs) ^ 2 +
              (b * b) * (sumSq as * sumSq bs - dotQ as bs ^ 2) +
              sumSq bs * (sumSq as * sumSq bs - dotQ as bs ^ 2) := by
          ring
        have hr : 0 ≤ (a * sumSq bs - b * dotQ as bs) ^ 2 +
              (b * b) * (sumSq as * sumSq bs - dotQ as bs ^ 2) +
              sumSq bs * (sumSq as * sumSq bs - dotQ as bs ^ 2) := by
          have hb := mul_nonneg (mul_self_nonneg b) (sub_nonneg.mpr hD)
          have hc := mul_nonneg hV (sub_nonneg.mpr hD)
          have ha := sq_nonneg (a * sumSq bs - b * dotQ as bs)
          linarith
        have hVX : 0 ≤ sumSq bs *
            ((a * a + sumSq as) * (b * b + sumSq bs) - (a * b + dotQ as bs) ^ 2) := by
          rw [key]
          exact hr
        have hX : 0 ≤ (a * a + sumSq as) * (b * b + sumSq bs) -
            (a * b + dotQ as bs) ^ 2 := by
          have h6 : sumSq bs * 0 ≤ sumSq bs *
              ((a * a + sumSq as) * (b * b + sumSq bs) - (a * b + dotQ as bs) ^ 2) := by
            simpa using hVX
          exact (mul_le_mul_left hVpos).mp h6
        linarith

/-- The dot product of two unit vectors lies in `[-1, 1]`. -/
theorem dotQ_unit_bounds (u v : List ℚ) (hu : sumSq u = 1) (hv : sumSq v = 1) :
    -1 ≤ dotQ u v ∧ dotQ u v ≤ 1 := by
  have h := dotQ_sq_le u v
  rw [hu, hv] at h
  constructor <;> nlinarith [sq_nonneg (dotQ u v - 1), sq_nonneg (dotQ u v + 1)]

/-- Normalization is the identity on an already unit-norm vector. -/
theorem l2normalizeQ_of_unit (v : List ℚ) (h : sumSq v = 1) : l2normalizeQ v = v := by
  rw [l2normalizeQ, h]
  have h1 : ratSqrt 1 = some 1 := by
    rw [ratSqrt]
    norm_num
  rw [h1]
  simp

/-- Every hit of the modelled index search pairs an index with the inner
product of the query and the stored vector at that index. -/
theorem faissIndexSearch_getElem (stored : List (List ℚ)) (q : List ℚ) (n : ℕ)
    (hit : ℕ × ℚ) (h : hit ∈ faissIndexSearch stored q n) :
    ∃ v, stored[hit.1]? = some v ∧ hit.2 = dotQ q v := by
  unfold faissIndexSearch at h
  have h1 := List.take_subset _ _ h
  have h2 := (List.perm_insertionSort _ _).mem_iff.mp h1
  simp only [List.mem_map] at h2
  obtain ⟨p, hp, rfl⟩ := h2
  exact ⟨p.2, List.mem_enum_iff_getElem?.mp hp, rfl⟩

/-- Every distance in a `FAISSVectorStore.query` result over one query vector
is the inner product of the normalized query with some stored vector. -/
theorem faissQuery_distances_mem (st : FaissStore) (qv : List ℚ) (n : ℕ)
    (w : Option (List (String × String))) (row : List ℚ) (d : ℚ)
    (hrow : row ∈ (faissQuery st [qv] n w).distances) (hd : d ∈ row) :
    ∃ r ∈ st.records, d = dotQ (l2normalizeQ qv) r.vec := by
  by_cases hempty : st.records.length = 0
  · rw [faissQuery, if_pos hempty] at hrow
    simp only [List.mem_singleton] at hrow
    subst hrow
    simp at hd
  · rw [faissQuery, if_neg hempty] at hrow
    simp only [List.map_cons, List.map_nil, List.mem_singleton] at hrow
    subst hrow
    simp only [List.mem_map] at hd
    obtain ⟨t, ht, rfl⟩ := hd
    simp only [List.mem_filterMap] at ht
    obtain ⟨hit, hhit, hf⟩ := ht
    obtain ⟨v, hv, hdot⟩ :=
      faissIndexSearch_getElem (st.records.map (·.vec)) (l2normalizeQ qv) n hit hhit
    rcases hrec : st.records.get? hit.1 with _ | r
    · rw [hrec] at hf
      simp at hf
    · have hrmem : r ∈ st.records := List.get?_mem hrec
      have hrv : r.vec = v := by
        rw [List.getElem?_map] at hv
        rw [List.get?_eq_getElem?] at hrec
        rw [hrec] at hv
        simpa using hv
      have hts : t.2.1 = hit.2 := by
        rw [hrec] at hf
        rcases w with _ | f <;> dsimp only at hf
        · simp only [Option.some.injEq] at hf
          rw [← hf]
        · split at hf
          · simp only [Option.some.injEq] at hf
            rw [← hf]
          · simp at hf
      exact ⟨r, hrmem, by rw [hts, hdot, hrv]⟩

/-- C3 (amended): on Backend A, cosine `search` scores are `max(0, 1 - d/2)`
over nonnegative native L2 distances, hence in `[0,1]`.  On Backend B the
cosine path returns the backend's inner products unchanged; for unit-norm
stored vectors and a unit-norm query they lie in `[-1,1]` — they are not
clamped to `[0,1]` and can be negative (see the counterexample). -/
theorem cosine_scores_range (native : QueryResult) (st : FaissStore)
    (qv : List ℚ) (topK : ℕ) (w : Option (List (String × String)))
    (hnative : ∀ row ∈ native.distances, ∀ d ∈ row, 0 ≤ d)
    (hunit : ∀ r ∈ st.records, sumSq r.vec = 1) (hq : sumSq qv = 1) :
    (∀ row ∈ (chromaSearchTransform "cosine" native).distances,
      ∀ s ∈ row, 0 ≤ s ∧ s ≤ 1) ∧
    (∀ row ∈ searchDistances (faissSearchMetric st qv topK "cosine" w),
      ∀ s ∈ row, -1 ≤ s ∧ s ≤ 1) := by
  constructor
  · intro row hrow s hs
    rw [chromaSearchTransform, if_pos rfl] at hrow
    simp only [List.mem_map] at hrow
    obtain ⟨drow, hdrow, rfl⟩ := hrow
    simp only [List.mem_map] at hs
    obtain ⟨d, hd, rfl⟩ := hs
    have hd0 := hnative drow hdrow d hd
    constructor
    · exact le_max_left 0 _
    · apply max_le
      · norm_num
      · linarith
  · intro row hrow s hs
    have hok : faissSearchMetric st qv topK "cosine" w =
        .ok (faissQuery st [qv] topK w) := by
      rw [faissSearchMetric]
      rw [if_neg (by simp)]
      rw [if_pos rfl]
    rw [hok] at hrow
    simp only [searchDistances] at hrow
    obtain ⟨r, hr, rfl⟩ := faissQuery_distances_mem st qv topK w row s hrow hs
    have hqn : l2normalizeQ qv = qv := l2normalizeQ_of_unit qv hq
    rw [hqn]
    exact dotQ_unit_bounds qv r.vec hq (hunit r hr)

/-- Witness for C3 (amended) on a one-record store and concrete native
distances. -/
theorem cosine_scores_range_witness :
    (∀ row ∈ (QueryResult.mk [["a"]] [[1]] [[[]]] [[""]]).distances,
      ∀ d ∈ row, (0:ℚ) ≤ d) ∧
    (∀ r ∈ (FaissStore.mk [⟨"a", [1, 0], [], ""⟩]).records, sumSq r.vec = 1) ∧
    sumSq [1, 0] = 1 ∧
    ((∀ row ∈ (chromaSearchTransform "cosine"
        (QueryResult.mk [["a"]] [[1]] [[[]]] [[""]])).distances,
      ∀ s ∈ row, 0 ≤ s ∧ s ≤ 1) ∧
    (∀ row ∈ searchDistances
        (faissSearchMetric (FaissStore.mk [⟨"a", [1, 0], [], ""⟩]) [1, 0] 1 "cosine" none),
      ∀ s ∈ row, -1 ≤ s ∧ s ≤ 1)) :=
  ⟨by norm_num, by norm_num [sumSq, dotQ], by norm_num [sumSq, dotQ],
    cosine_scores_range (QueryResult.mk [["a"]] [[1]] [[[]]] [[""]])
      (FaissStore.mk [⟨"a", [1, 0], [], ""⟩]) [1, 0] 1 none
      (by norm_num) (by norm_num [sumSq, dotQ]) (by norm_num [sumSq, dotQ])⟩

/-- C3 counterexample: on Backend B a stored vector opposite to the query
yields a cosine similarity score of `-1`, outside the claimed `[0,1]`. -/
theorem cosine_score_negative_on_faiss :
    (faissSearchMetric (faissAdd (FaissStore.mk []) [⟨"a", [-1, 0], [], ""⟩])
        [1, 0] 1 "cosine" none).toOption.map (fun r => r.distances) =
      some [[-1]] ∧ ¬ ((0:ℚ) ≤ -1) := by
  constructor
  · have hst : faissAdd (FaissStore.mk []) [⟨"a", [-1, 0], [], ""⟩] =
        FaissStore.mk [⟨"a", [-1, 0], [], ""⟩] := by
      have hn : l2normalizeQ [-1, 0] = [-1, 0] := by
        apply l2normalizeQ_of_unit
        norm_num [sumSq, dotQ]
      simp [faissAdd, hn]
    rw [hst]
    have hq : l2normalizeQ [1, 0] = [1, 0] := by
      apply l2normalizeQ_of_unit
      norm_num [sumSq, dotQ]
    rw [faissSearchMetric]
    rw [if_neg (by simp)]
    rw [if_pos rfl]
    rw [faissQuery]
    rw [if_neg (by simp)]
    simp only [hq, faissIndexSearch, List.map_cons, List.map_nil]
    norm_num [dotQ, List.insertionSort, List.orderedInsert, List.enum,
      List.enumFrom, matchesFilter, List.filterMap_cons, List.filterMap_nil,
      List.getElem?_cons_zero, List.getElem?_nil]
    exact ⟨_, rfl, rfl⟩
  · norm_num

/-! ## C7: result count versus `top_k`, and `top_k = 0` -/

/-- Every ids row of a `FAISSVectorStore.query` result holds at most
`n_results` entries. -/
theorem faissQuery_ids_le (st : FaissStore) (qs : List (List ℚ)) (n : ℕ)
    (w : Option (List (String × String))) :
    ∀ row ∈ (faissQuery st qs n w).ids, row.length ≤ n := by
  intro row hrow
  by_cases hempty : st.records.length = 0
  · rw [faissQuery, if_pos hempty] at hrow
    simp only [List.mem_singleton] at hrow
    subst hrow
    exact Nat.zero_le n
  · rw [faissQuery, if_neg hempty] at hrow
    simp only [List.mem_map] at hrow
    obtain ⟨kept, hkept, rfl⟩ := hrow
    obtain ⟨q, _, rfl⟩ := hkept
    rw [List.length_map]
    calc (List.filterMap _ (faissIndexSearch (st.records.map (·.vec))
          (l2normalizeQ q) n)).length
        ≤ (faissIndexSearch (st.records.map (·.vec)) (l2normalizeQ q) n).length :=
          List.length_filterMap_le _ _
    _ ≤ n := by
        rw [faissIndexSearch, List.length_take]
        exact min_le_left _ _

/-- C7 (amended): on Backend B, `search` returns at most `top_k` ids for
every metric (the cosine path queries at `top_k`, the others over-fetch and
trim), and on Backend A the post-processing rewrites only the distances, so
the backend's `top_k`-bounded ids pass through unchanged.  `top_k` itself is
not validated by `search` (see the `top_k = 0` counterexample); the request
models of the HTTP layer enforce `top_k ∈ [1,100]` separately. -/
theorem search_result_count (st : FaissStore) (qv : List ℚ) (k : ℕ)
    (metric : String) (w : Option (List (String × String)))
    (native res : QueryResult)
    (hres : faissSearchMetric st qv k metric w = .ok res) :
    (∀ row ∈ res.ids, row.length ≤ k) ∧
    (chromaSearchTransform metric native).ids = native.ids := by
  constructor
  · by_cases h1 : metric ≠ "cosine" ∧ metric ≠ "dot" ∧ metric ≠ "euclidean"
    · rw [faissSearchMetric, if_pos h1] at hres
      simp at hres
    · rw [faissSearchMetric, if_neg h1] at hres
      by_cases h2 : metric = "cosine"
      · rw [if_pos h2] at hres
        simp only [Except.ok.injEq] at hres
        subst hres
        exact faissQuery_ids_le st [qv] k w
      · rw [if_neg h2] at hres
        simp only [Except.ok.injEq] at hres
        subst hres
        intro row hrow
        simp only [List.mem_map] at hrow
        obtain ⟨row', hrow', rfl⟩ := hrow
        rw [List.length_take]
        exact min_le_left _ _
  · rw [chromaSearchTransform]
    split_ifs <;> rfl

/-- Witness for C7 (amended) on the empty store with `top_k = 1`. -/
theorem search_result_count_witness :
    faissSearchMetric (FaissStore.mk []) [1, 0] 1 "cosine" none =
      .ok (QueryResult.mk [[]] [[]] [[]] [[]]) ∧
    ((∀ row ∈ (QueryResult.mk [[]] [[]] [[]] [[]]).ids, row.length ≤ 1) ∧
    (chromaSearchTransform "cosine"
        (QueryResult.mk [["a"]] [[1]] [[[]]] [[""]])).ids =
      (QueryResult.mk [["a"]] [[1]] [[[]]] [[""]]).ids) :=
  ⟨rfl, search_result_count (FaissStore.mk []) [1, 0] 1 "cosine" none
    (QueryResult.mk [["a"]] [[1]] [[[]]] [[""]])
    (QueryResult.mk [[]] [[]] [[]] [[]]) rfl⟩

/-- C7 counterexample: `search` with `top_k = 0` on Backend B returns a
successful empty result — it does not fail with any error, contradicting the
claimed `InvalidParameter` rejection of non-positive `top_k`. -/
theorem search_topk_zero_not_error :
    faissSearchMetric (FaissStore.mk []) [1, 0] 0 "cosine" none =
      .ok (QueryResult.mk [[]] [[]] [[]] [[]]) ∧
    ∀ e, faissSearchMetric (FaissStore.mk []) [1, 0] 0 "cosine" none ≠ .error e := by
  have heq : faissSearchMetric (FaissStore.mk []) [1, 0] 0 "cosine" none =
      .ok (QueryResult.mk [[]] [[]] [[]] [[]]) := rfl
  exact ⟨heq, fun e h => by rw [heq] at h; exact absurd h (by simp)⟩

end CsvOpt
